import Mathlib

/-!
# Verification of the Context/Epics sheet-to-JSON core

Shallow embedding of the transformation core of the Google-Apps-Script
project (files `context.js`, `config.js` and the Epics module):

* `createContextJSON` — the Sheet-to-Context-Tree transformer
  (`src/context.js`, `createContextJSON`), including its batched
  value-coercion pass (`batchParseValues`).
* `getRowData` — the row-to-object mapper (Epics module, `getRowData`).
* `createEpicsJSON` — the payload assembler (Epics module, `createEpicsJSON`).
* `isExtractTodoSummariesTrigger` — the trigger classifier.
* `getWebhookUrl` — the configuration lookup (`src/config.js`).

Modelling conventions:

* JavaScript values are modelled by the inductive type `JSVal`
  (undefined, null, booleans, numbers, strings, arrays, plain objects).
  Numbers are modelled as integers: the sheets in play hold text, integer
  numbers and booleans, and no claim concerns fractional literals.
* JavaScript objects are modelled as insertion-ordered association lists
  with string keys (`JSObj`); assignment to an existing key keeps the
  key's position and replaces its value, assignment to a fresh key
  appends it, which is exactly the enumeration-order behaviour of plain
  script objects for non-index keys.  The prototype chain is not
  modelled: objects behave as bare key-value maps.
* `JSON.parse` is modelled by a recursive-descent parser over the
  argument coerced to a string (as `JSON.parse` does), covering null,
  booleans, integer numbers, strings with the standard one-character
  escapes, arrays and objects.  Fractional/exponent numbers and `\u`
  escapes are outside the model.
-/

inductive JSVal where
  | undef
  | null
  | bool (b : Bool)
  | num (n : Int)
  | str (s : String)
  | arr (elems : List JSVal)
  | obj (fields : List (String × JSVal))

/-- JavaScript objects as insertion-ordered association lists. -/
abbrev JSObj := List (String × JSVal)

/-- JavaScript truthiness of a value (the test used by `if (key && ...)`
and `if (collection)` in `createContextJSON`). -/
def truthy : JSVal → Bool
  | .undef => false
  | .null => false
  | .bool b => b
  | .num n => n != 0
  | .str s => s != ""
  | .arr _ => true
  | .obj _ => true

/-- `v === undefined`. -/
def isUndef : JSVal → Bool
  | .undef => true
  | _ => false

/-- `v === ''` (strict equality with the empty string). -/
def isEmptyStr : JSVal → Bool
  | .str s => s == ""
  | _ => false

/-- JavaScript `ToString` on non-array values (an array nested inside
an array is approximated by the empty string; every other case is
exact). -/
def jsScalarToString : JSVal → String
  | .undef => "undefined"
  | .null => "null"
  | .bool b => cond b "true" "false"
  | .num n => toString n
  | .str s => s
  | .arr _ => ""
  | .obj _ => "[object Object]"

/-- A single array element as printed by `Array.prototype.toString`:
`null` and `undefined` elements print as the empty string. -/
def jsElemString : JSVal → String
  | .undef => ""
  | .null => ""
  | v => jsScalarToString v

/-- JavaScript `ToString` on the values of the model: used when a value
becomes an object key and by the `JSON.parse` argument coercion.
Arrays print as their comma-joined elements. -/
def jsToString : JSVal → String
  | .arr es => String.intercalate "," (es.map jsElemString)
  | v => jsScalarToString v

/-! ## A model of `JSON.parse` -/

/-- Skip JSON whitespace. -/
def skipWs : List Char → List Char
  | c :: cs => if c = ' ' ∨ c = '\t' ∨ c = '\n' ∨ c = '\r' then skipWs cs else c :: cs
  | [] => []

/-- Translate a JSON string escape character (`\u` escapes are outside
the model). -/
def escChar : Char → Option Char
  | '"' => some '"'
  | '\\' => some '\\'
  | '/' => some '/'
  | 'b' => some (Char.ofNat 8)
  | 'f' => some (Char.ofNat 12)
  | 'n' => some '\n'
  | 'r' => some '\r'
  | 't' => some '\t'
  | _ => none

/-- Parse the body of a JSON string literal (after the opening quote),
returning the characters and the rest of the input. -/
def parseStringBody : List Char → Option (List Char × List Char)
  | [] => none
  | '"' :: rest => some ([], rest)
  | '\\' :: c :: rest => do
      let e ← escChar c
      let (s, r) ← parseStringBody rest
      some (e :: s, r)
  | '\\' :: [] => none
  | c :: rest => do
      if c.val < 32 then none
      else
        let (s, r) ← parseStringBody rest
        some (c :: s, r)

/-- Split off the leading decimal digits. -/
def takeDigits : List Char → List Char × List Char
  | [] => ([], [])
  | c :: rest =>
      if c.isDigit then
        let (ds, r) := takeDigits rest
        (c :: ds, r)
      else ([], c :: rest)

/-- Digit characters to a natural number. -/
def digitsToNat (ds : List Char) : Nat :=
  ds.foldl (fun n c => n * 10 + (c.toNat - 48)) 0

/-- Parse a JSON integer literal (optional minus, no leading zeros,
fractional and exponent parts are outside the model). -/
def parseNumber (cs : List Char) : Option (JSVal × List Char) :=
  let (neg, cs₁) := match cs with
    | '-' :: rest => (true, rest)
    | _ => (false, cs)
  match takeDigits cs₁ with
  | ([], _) => none
  | (d :: ds, rest) =>
      if d = '0' ∧ ds ≠ [] then none
      else
        let n : Int := Int.ofNat (digitsToNat (d :: ds))
        some (.num (if neg then -n else n), rest)

/-- Prepend a member to a member list, honouring `JSON.parse`'s
duplicate-key rule: a repeated key keeps its first position in the text
and takes the value of its last occurrence. -/
def jsonAddMember (k : String) (v : JSVal) (ms : List (String × JSVal)) :
    List (String × JSVal) :=
  match ms.find? (fun m => m.1 == k) with
  | some m => (k, m.2) :: ms.filter (fun p => p.1 != k)
  | none => (k, v) :: ms

mutual

/-- Fuelled recursive-descent parser for a JSON value. -/
def parseVal : Nat → List Char → Option (JSVal × List Char)
  | 0, _ => none
  | fuel + 1, cs =>
    match skipWs cs with
    | 'n' :: 'u' :: 'l' :: 'l' :: rest => some (.null, rest)
    | 't' :: 'r' :: 'u' :: 'e' :: rest => some (.bool true, rest)
    | 'f' :: 'a' :: 'l' :: 's' :: 'e' :: rest => some (.bool false, rest)
    | '"' :: rest => (parseStringBody rest).map (fun p => (.str (String.mk p.1), p.2))
    | '[' :: rest =>
        (match skipWs rest with
         | ']' :: rest₂ => some (.arr [], rest₂)
         | cs₂ => (parseElems fuel cs₂).map (fun p => (.arr p.1, p.2)))
    | '{' :: rest =>
        (match skipWs rest with
         | '}' :: rest₂ => some (.obj [], rest₂)
         | cs₂ => (parseMembers fuel cs₂).map (fun p => (.obj p.1, p.2)))
    | cs₂ => parseNumber cs₂

/-- Array elements: value (`,` value)* `]`. -/
def parseElems : Nat → List Char → Option (List JSVal × List Char)
  | 0, _ => none
  | fuel + 1, cs => do
      let (v, rest) ← parseVal fuel cs
      match skipWs rest with
      | ',' :: rest₂ => do
          let (vs, r) ← parseElems fuel rest₂
          some (v :: vs, r)
      | ']' :: rest₂ => some ([v], rest₂)
      | _ => none

/-- Object members: string `:` value (`,` string `:` value)* `}`.
A duplicate key keeps its first position and takes the later value,
as `JSON.parse` does. -/
def parseMembers : Nat → List Char → Option (List (String × JSVal) × List Char)
  | 0, _ => none
  | fuel + 1, cs =>
    match skipWs cs with
    | '"' :: rest => do
        let (k, rest₂) ← parseStringBody rest
        match skipWs rest₂ with
        | ':' :: rest₃ => do
            let (v, rest₄) ← parseVal fuel rest₃
            match skipWs rest₄ with
            | ',' :: rest₅ => do
                let (ms, r) ← parseMembers fuel rest₅
                some (jsonAddMember (String.mk k) v ms, r)
            | '}' :: rest₅ => some ([(String.mk k, v)], rest₅)
            | _ => none
        | _ => none
    | _ => none

end

/-- `JSON.parse` on a string: parse one value, allow surrounding
whitespace, reject trailing input.  `none` models a thrown
`SyntaxError`. -/
def jsonParseStr (s : String) : Option JSVal :=
  match parseVal (2 * s.length + 8) s.toList with
  | some (v, rest) => if skipWs rest = [] then some v else none
  | none => none

/-- `JSON.parse(value)` on an arbitrary value: the argument is coerced
to a string first, exactly as `JSON.parse` does. -/
def jsonParseJS (v : JSVal) : Option JSVal :=
  jsonParseStr (jsToString v)

/-- `parseValue` (src/context.js lines 149-155): `JSON.parse` with the
original value as the fallback on parse failure.  `batchParseValues`
applies the identical try/catch body to each element. -/
def parseValue (v : JSVal) : JSVal :=
  match jsonParseJS v with
  | some j => j
  | none => v

/-- `batchParseValues` (src/context.js lines 134-142). -/
def batchParseValues (values : List JSVal) : List JSVal :=
  values.map parseValue

/-! ## Plain-object primitives -/

/-- Property assignment `o[k] = v` on a plain object: replace in place
when the key exists, append otherwise. -/
def setKey : JSObj → String → JSVal → JSObj
  | [], k, v => [(k, v)]
  | (k', v') :: rest, k, v =>
      if k' = k then (k, v) :: rest else (k', v') :: setKey rest k v

/-- Property read `o[k]` on a plain object (`none` = absent). -/
def lookupKey : JSObj → String → Option JSVal
  | [], _ => none
  | (k', v) :: rest, k => if k' = k then some v else lookupKey rest k

/-- Assign every pair of `l` onto `a` in order (the loop underlying
`Object.assign` and `Object.fromEntries`). -/
def assignAll (a : JSObj) (l : List (String × JSVal)) : JSObj :=
  l.foldl (fun r p => setKey r p.1 p.2) a

/-- `Object.fromEntries` on a list of (key, value) pairs: keys are
coerced to strings, a duplicate key keeps its first position and takes
its last value. -/
def fromEntries (l : List (JSVal × JSVal)) : JSObj :=
  assignAll [] (l.map (fun p => (jsToString p.1, p.2)))

/-! ## The Sheet-to-Context-Tree transformer (src/context.js) -/

/-- The row filter of `createContextJSON` (line 85):
`if (key && value !== undefined && value !== '')` with
`key = row[3]` and `value = row[6]`. -/
def rowKept (row : List JSVal) : Bool :=
  truthy (row.getD 3 .undef) && !isUndef (row.getD 6 .undef)
    && !isEmptyStr (row.getD 6 .undef)

/-- Append a (key, value) pair to a collection's bucket, creating the
bucket on first use (lines 87-88): `if (!grouped[collection])
grouped[collection] = []; grouped[collection].push([key, value])`. -/
def pushGrouped :
    List (String × List (JSVal × JSVal)) → String → JSVal × JSVal →
      List (String × List (JSVal × JSVal))
  | [], c, p => [(c, [p])]
  | (c', ps) :: rest, c, p =>
      if c' = c then (c', ps ++ [p]) :: rest
      else (c', ps) :: pushGrouped rest c p

/-- Accumulator of the row scan: the `grouped` object and the
`nonCollectionRows` list. -/
structure ContextAccum where
  grouped : List (String × List (JSVal × JSVal))
  nonCollectionRows : List (JSVal × JSVal)

/-- One step of `data.slice(1).forEach(row => ...)`
(src/context.js lines 84-94). -/
def groupStep (acc : ContextAccum) (row : List JSVal) : ContextAccum :=
  let collection := row.getD 0 .undef
  let key := row.getD 3 .undef
  let value := row.getD 6 .undef
  if rowKept row then
    if truthy collection then
      { acc with grouped := pushGrouped acc.grouped (jsToString collection) (key, value) }
    else
      { acc with nonCollectionRows := acc.nonCollectionRows ++ [(key, value)] }
  else acc

/-- The accumulator after scanning all data rows of a grid. -/
def contextAccumOf (data : List (List JSVal)) : ContextAccum :=
  data.tail.foldl groupStep ⟨[], []⟩

/-- The `result` object before the value-coercion pass
(src/context.js lines 96-102): collection objects first, then the flat
pairs assigned over them. -/
def rawContextResult (data : List (List JSVal)) : JSObj :=
  let acc := contextAccumOf data
  let collResult := acc.grouped.foldl
    (fun r p => setKey r p.1 (.obj (fromEntries p.2))) []
  assignAll collResult (fromEntries acc.nonCollectionRows)

/-- The flattening of lines 104-107:
`Object.values(result).flatMap(obj => obj instanceof Object ?
Object.values(obj) : [obj])`.  Arrays are `instanceof Object` and their
`Object.values` are their elements. -/
def flattenVals : JSObj → List JSVal
  | [] => []
  | p :: rest =>
      (match p.2 with
       | .obj fields => fields.map Prod.snd
       | .arr es => es
       | v => [v]) ++ flattenVals rest

/-- Write parsed values back into an inner object's fields by a running
index (lines 113-115), returning the unconsumed values. -/
def writeBackFields :
    List (String × JSVal) → List JSVal → List (String × JSVal) × List JSVal
  | [], vs => ([], vs)
  | p :: rest, vs =>
      let done := writeBackFields rest vs.tail
      ((p.1, vs.headD .undef) :: done.1, done.2)

/-- Write parsed values back into an array's elements by a running
index, returning the unconsumed values. -/
def writeBackElems : List JSVal → List JSVal → List JSVal × List JSVal
  | [], vs => ([], vs)
  | _ :: rest, vs =>
      let done := writeBackElems rest vs.tail
      (vs.headD .undef :: done.1, done.2)

/-- The write-back loop of lines 110-120: top-level object values have
their members rewritten, other top-level values are rewritten whole. -/
def writeBackTop : JSObj → List JSVal → JSObj
  | [], _ => []
  | p :: rest, vs =>
      match p.2 with
      | .obj fields =>
          let done := writeBackFields fields vs
          (p.1, .obj done.1) :: writeBackTop rest done.2
      | .arr es =>
          let done := writeBackElems es vs
          (p.1, .arr done.1) :: writeBackTop rest done.2
      | _ => (p.1, vs.headD .undef) :: writeBackTop rest vs.tail

/-- `createContextJSON` (src/context.js lines 77-127).  The argument is
an `Option`: `none` models a `null`/`undefined` grid, on which
`data.slice(1)` throws and the surrounding catch returns `{}`. -/
def createContextJSON : Option (List (List JSVal)) → JSObj
  | none => []
  | some data =>
      let result := rawContextResult data
      writeBackTop result (batchParseValues (flattenVals result))

/-! ## The per-leaf coercion pass (specification variant) -/

/-- One entry of the coercion pass applied in place: an object value has
each member coerced with `parseValue`, an array each element, any other
value is coerced whole. -/
def leafParse : JSVal → JSVal
  | .obj fields => .obj (fields.map (fun p => (p.1, parseValue p.2)))
  | .arr es => .arr (es.map parseValue)
  | v => parseValue v

/-- Coerce every leaf of the result tree independently, in place. -/
def parsePassNaive (r : JSObj) : JSObj :=
  r.map (fun p => (p.1, leafParse p.2))

/-- Modelled from the spec (§4.1 step 7 and the design rationale): the
transformer with the batched coercion pass replaced by independent
in-place coercion of every leaf with the single-value parse function. -/
def createContextJSONNaive : Option (List (List JSVal)) → JSObj
  | none => []
  | some data => parsePassNaive (rawContextResult data)

/-! ## The Epics module -/

/-- `v === null`. -/
def isNull : JSVal → Bool
  | .null => true
  | _ => false

/-- The emptiness test of `createEpicsJSON` (line 134):
`value !== null && value !== undefined && value !== ''`. -/
def epicsKept (v : JSVal) : Bool :=
  !isNull v && !isUndef v && !isEmptyStr v

/-- `getRowData` (Epics module, lines 96-107): headers reduced in order,
`obj[header] = row[index]`; a missing row position reads as
`undefined`. -/
def getRowData (headers : List JSVal) (row : List JSVal) : JSObj :=
  headers.enum.foldl
    (fun obj p => setKey obj (jsToString p.2) (row.getD p.1 .undef)) []

/-- The trigger metadata drawn from the edit event by `createEpicsJSON`
(spreadsheet id, sheet name, row number, user email, timestamp). -/
structure TriggerMeta where
  gsheet_id : JSVal
  sheet_name_id : JSVal
  row_id : JSVal
  user_id : JSVal
  modify_time : JSVal

/-- The `eventData` object: every entry of `data` whose value passes
`epicsKept`, assigned in order (lines 133-137). -/
def epicsEventData (data : JSObj) : JSObj :=
  data.foldl (fun ev p => if epicsKept p.2 then setKey ev p.1 p.2 else ev) []

/-- `createEpicsJSON` (Epics module, lines 117-144): `context` and
`eventData` fields, the five metadata fields when an event is supplied,
then the filtered copy of `data` into `eventData`. -/
def createEpicsJSON (data : JSObj) (contextData : JSVal)
    (e : Option TriggerMeta) : JSObj :=
  let base : JSObj := [("context", contextData), ("eventData", .obj [])]
  let withMeta : JSObj :=
    match e with
    | none => base
    | some m => base ++
        [("gsheet_id", m.gsheet_id), ("sheet_name_id", m.sheet_name_id),
         ("row_id", m.row_id), ("user_id", m.user_id),
         ("modify_time", m.modify_time)]
  setKey withMeta "eventData" (.obj (epicsEventData data))

/-- `value === "Groom EPIC"` (strict equality). -/
def isGroomEpic : JSVal → Bool
  | .str s => s == "Groom EPIC"
  | _ => false

/-- `isExtractTodoSummariesTrigger` (Epics module, lines 45-47):
`range.getColumn() === 10 && range.getValue() === "Groom EPIC"`. -/
def isExtractTodoSummariesTrigger (col : Int) (value : JSVal) : Bool :=
  col == 10 && isGroomEpic value

/-! ## Configuration (src/config.js) -/

/-- `CONFIG.WEBHOOKS` (src/config.js lines 10-23). -/
def CONFIG_WEBHOOKS : List (String × String) :=
  [("GROOM_EPICS", "https://hook.eu2.make.com/rl83vjk9x0iad1avisatjk9rok27wgpy"),
   ("GROOM_USER_STORIES_AND_TASKS", ""),
   ("GROOM_SUBTASKS", ""),
   ("ESTIMATE_SUBTASKS", "")]

/-- `getWebhookUrl` (src/config.js lines 30-38):
`CONFIG.WEBHOOKS[operation] || null` — an absent entry reads as
`undefined` and a falsy (empty-string) entry is replaced by `null`,
both modelled by `none`. -/
def getWebhookUrl (operation : String) : Option String :=
  match CONFIG_WEBHOOKS.lookup operation with
  | some url => if url = "" then none else some url
  | none => none

/-! ## Spec-side definitions -/

/-- Modelled from the spec (§3): a cell is "empty" exactly when it is
`undefined`, `null`, or the empty string. -/
def specEmpty (v : JSVal) : Bool :=
  isUndef v || isNull v || isEmptyStr v

/-- The spec's row-inclusion condition (§4.1 step 3): entry key
non-empty and entry value non-empty. -/
def specRowKept (row : List JSVal) : Bool :=
  !specEmpty (row.getD 3 .undef) && !specEmpty (row.getD 6 .undef)

/-- Last-write-wins lookup in a list of (key, value) pairs. -/
def lastWins : List (String × JSVal) → String → Option JSVal
  | [], _ => none
  | p :: rest, k =>
      match lastWins rest k with
      | some v => some v
      | none => if p.1 = k then some p.2 else none

/-- First-seen-order deduplication of a key list. -/
def firstSeen (l : List String) : List String :=
  l.foldl (fun ks k => if k ∈ ks then ks else ks ++ [k]) []

/-- The `instanceof Object` test used by the coercion pass (arrays and
plain objects are objects; primitives are not). -/
def isObjectLike : JSVal → Bool
  | .obj _ => true
  | .arr _ => true
  | _ => false

/-- Pad a row on the right with `undefined` up to the 7 columns A-G. -/
def padRow7 (row : List JSVal) : List JSVal :=
  row ++ List.replicate (7 - row.length) JSVal.undef

/-- A generic 7-column header row for concrete grids (row 0 is always
discarded by the transformer). -/
def hdr7 : List JSVal :=
  [.str "Header A", .str "Header B", .str "Header C", .str "Header D",
   .str "Header E", .str "Header F", .str "Header G"]

/-- Concrete trigger metadata for instantiating the assembler. -/
def metaEx : TriggerMeta :=
  ⟨.str "sheet-id-1", .str "Epics", .num 5, .str "user@example.com",
   .str "2024-01-01T00:00:00.000Z"⟩

/-! ## Lemmas about the object primitives -/

theorem lookupKey_setKey (o : JSObj) (k k' : String) (v : JSVal) :
    lookupKey (setKey o k v) k' = if k = k' then some v else lookupKey o k' := by
  induction o with
  | nil => simp [setKey, lookupKey]
  | cons p rest ih =>
      obtain ⟨k₀, v₀⟩ := p
      simp only [setKey]
      by_cases h1 : k₀ = k
      · subst h1
        by_cases h2 : k₀ = k'
        · simp [lookupKey, h2]
        · simp [lookupKey, h2]
      · by_cases h2 : k₀ = k'
        · subst h2
          have hkk : ¬ k = k₀ := fun h => h1 h.symm
          simp [lookupKey, h1, hkk]
        · simp [lookupKey, h1, h2, ih]

theorem keys_setKey (o : JSObj) (k : String) (v : JSVal) :
    (setKey o k v).map Prod.fst =
      if k ∈ o.map Prod.fst then o.map Prod.fst else o.map Prod.fst ++ [k] := by
  induction o with
  | nil => simp [setKey]
  | cons p rest ih =>
      obtain ⟨k₀, v₀⟩ := p
      by_cases h1 : k₀ = k
      · subst h1; simp [setKey]
      · have h1' : ¬ k = k₀ := fun h => h1 h.symm
        by_cases h2 : k ∈ rest.map Prod.fst
        · simp [setKey, h1, h1', h2, ih]
        · simp [setKey, h1, h1', h2, ih]

theorem setKey_of_not_mem (o : JSObj) (k : String) (v : JSVal)
    (h : k ∉ o.map Prod.fst) : setKey o k v = o ++ [(k, v)] := by
  induction o with
  | nil => simp [setKey]
  | cons p rest ih =>
      obtain ⟨k₀, v₀⟩ := p
      simp only [List.map_cons, List.mem_cons] at h
      push_neg at h
      have h1 : ¬ k₀ = k := fun hh => h.1 hh.symm
      simp [setKey, h1, ih h.2]

theorem nodup_keys_setKey (o : JSObj) (k : String) (v : JSVal)
    (h : (o.map Prod.fst).Nodup) : ((setKey o k v).map Prod.fst).Nodup := by
  rw [keys_setKey]
  by_cases hm : k ∈ o.map Prod.fst
  · simpa [hm] using h
  · simp only [hm, if_false]
    exact List.Nodup.append h (List.nodup_singleton k) (by simpa using hm)

theorem lookupKey_eq_none_of_not_mem (o : JSObj) (k : String)
    (h : k ∉ o.map Prod.fst) : lookupKey o k = none := by
  induction o with
  | nil => rfl
  | cons p rest ih =>
      simp only [List.map_cons, List.mem_cons] at h
      push_neg at h
      have h1 : ¬ p.1 = k := fun hh => h.1 hh.symm
      cases p
      simp only [lookupKey, if_neg h1]
      exact ih h.2

theorem lastWins_eq_none_of_not_mem (l : JSObj) (k : String)
    (h : k ∉ l.map Prod.fst) : lastWins l k = none := by
  induction l with
  | nil => rfl
  | cons p rest ih =>
      simp only [List.map_cons, List.mem_cons] at h
      push_neg at h
      have h1 : ¬ p.1 = k := fun hh => h.1 hh.symm
      simp [lastWins, ih h.2, h1]

theorem lookupKey_assignAll (l : List (String × JSVal)) (a : JSObj) (k : String) :
    lookupKey (assignAll a l) k =
      match lastWins l k with
      | some v => some v
      | none => lookupKey a k := by
  induction l generalizing a with
  | nil => simp [assignAll, lastWins]
  | cons p rest ih =>
      show lookupKey (assignAll (setKey a p.1 p.2) rest) k = _
      rw [ih]
      cases hrest : lastWins rest k with
      | some v => simp [lastWins, hrest]
      | none =>
          simp only [lastWins, hrest, lookupKey_setKey]
          by_cases h : p.1 = k
          · simp [h]
          · simp [h]

theorem lastWins_eq_lookupKey_of_nodup (l : JSObj) (k : String)
    (h : (l.map Prod.fst).Nodup) : lastWins l k = lookupKey l k := by
  induction l with
  | nil => rfl
  | cons p rest ih =>
      obtain ⟨k₀, v₀⟩ := p
      simp only [List.map_cons, List.nodup_cons] at h
      have hrest := ih h.2
      by_cases h1 : k₀ = k
      · subst h1
        have hn1 : lastWins rest k₀ = none :=
          lastWins_eq_none_of_not_mem rest k₀ h.1
        simp [lastWins, lookupKey, hn1]
      · simp only [lastWins, lookupKey, if_neg h1, hrest]
        cases lookupKey rest k <;> simp

theorem nodup_keys_assignAll (l : List (String × JSVal)) (a : JSObj)
    (h : (a.map Prod.fst).Nodup) : ((assignAll a l).map Prod.fst).Nodup := by
  induction l generalizing a with
  | nil => exact h
  | cons p rest ih =>
      show (((assignAll (setKey a p.1 p.2) rest)).map Prod.fst).Nodup
      exact ih _ (nodup_keys_setKey a p.1 p.2 h)

theorem nodup_keys_fromEntries (l : List (JSVal × JSVal)) :
    ((fromEntries l).map Prod.fst).Nodup :=
  nodup_keys_assignAll _ [] (by simp)

theorem assignAll_of_fresh (l : List (String × JSVal)) (a : JSObj)
    (hfresh : ∀ p ∈ l, p.1 ∉ a.map Prod.fst) (hnd : (l.map Prod.fst).Nodup) :
    assignAll a l = a ++ l := by
  induction l generalizing a with
  | nil => simp [assignAll]
  | cons p rest ih =>
      simp only [List.map_cons, List.nodup_cons] at hnd
      have hp : p.1 ∉ a.map Prod.fst := hfresh p (by simp)
      show assignAll (setKey a p.1 p.2) rest = a ++ p :: rest
      rw [setKey_of_not_mem a p.1 p.2 hp]
      rw [ih (a ++ [(p.1, p.2)])]
      · simp
      · intro q hq
        simp only [List.map_append, List.mem_append]
        push_neg
        constructor
        · exact fun hmem => (hfresh q (by simp [hq])) hmem
        · simp only [List.map_cons, List.map_nil, List.mem_singleton]
          intro hq1
          exact hnd.1 (hq1 ▸ (List.mem_map_of_mem Prod.fst hq))
      · exact hnd.2

theorem assignAll_nil_of_nodup (l : List (String × JSVal))
    (hnd : (l.map Prod.fst).Nodup) : assignAll [] l = l := by
  simpa using assignAll_of_fresh l [] (by simp) hnd

theorem lookupKey_map_vals (l : JSObj) (f : JSVal → JSVal) (k : String) :
    lookupKey (l.map (fun p => (p.1, f p.2))) k = (lookupKey l k).map f := by
  induction l with
  | nil => rfl
  | cons p rest ih =>
      by_cases h : p.1 = k
      · simp [lookupKey, h]
      · simp [lookupKey, h, ih]

theorem keys_assignAll (l : List (String × JSVal)) (a : JSObj) :
    (assignAll a l).map Prod.fst =
      l.foldl (fun ks p => if p.1 ∈ ks then ks else ks ++ [p.1])
        (a.map Prod.fst) := by
  induction l generalizing a with
  | nil => rfl
  | cons p rest ih =>
      show ((assignAll (setKey a p.1 p.2) rest)).map Prod.fst = _
      rw [ih, keys_setKey, List.foldl_cons]

theorem keys_fromEntries (l : List (JSVal × JSVal)) :
    (fromEntries l).map Prod.fst =
      firstSeen (l.map (fun p => jsToString p.1)) := by
  show (assignAll [] (l.map (fun p => (jsToString p.1, p.2)))).map Prod.fst = _
  rw [keys_assignAll]
  simp only [List.map_nil, firstSeen, List.foldl_map]

theorem lookupKey_fromEntries (l : List (JSVal × JSVal)) (k : String) :
    lookupKey (fromEntries l) k =
      lastWins (l.map (fun p => (jsToString p.1, p.2))) k := by
  show lookupKey (assignAll [] (l.map (fun p => (jsToString p.1, p.2)))) k = _
  rw [lookupKey_assignAll]
  cases lastWins (l.map (fun p => (jsToString p.1, p.2))) k <;> simp [lookupKey]

/-! ## Lemmas about the coercion passes -/

theorem writeBackFields_spec (fields : List (String × JSVal)) (vs : List JSVal) :
    writeBackFields fields ((fields.map Prod.snd).map parseValue ++ vs) =
      (fields.map (fun p => (p.1, parseValue p.2)), vs) := by
  induction fields with
  | nil => simp [writeBackFields]
  | cons p rest ih =>
      simp only [List.map_map] at ih ⊢
      simp [writeBackFields, ih]

theorem writeBackElems_spec (es : List JSVal) (vs : List JSVal) :
    writeBackElems es (es.map parseValue ++ vs) = (es.map parseValue, vs) := by
  induction es with
  | nil => simp [writeBackElems]
  | cons e rest ih => simp [writeBackElems, ih]

theorem writeBackTop_flatten_aux (r : JSObj) (vs : List JSVal) :
    writeBackTop r ((flattenVals r).map parseValue ++ vs) = parsePassNaive r := by
  induction r generalizing vs with
  | nil => rfl
  | cons p rest ih =>
      obtain ⟨k, v⟩ := p
      cases v with
      | obj fields =>
          simp only [flattenVals, List.map_append, List.append_assoc, writeBackTop,
            writeBackFields_spec, parsePassNaive, List.map_cons, leafParse]
          exact congrArg _ (ih vs)
      | arr es =>
          simp only [flattenVals, List.map_append, List.append_assoc, writeBackTop,
            writeBackElems_spec, parsePassNaive, List.map_cons, leafParse]
          exact congrArg _ (ih vs)
      | undef =>
          simp only [flattenVals, List.map_append, List.append_assoc, writeBackTop,
            parsePassNaive, List.map_cons, leafParse, List.map_nil, List.nil_append,
            List.singleton_append, List.headD_cons, List.tail_cons]
          exact congrArg _ (ih vs)
      | null =>
          simp only [flattenVals, List.map_append, List.append_assoc, writeBackTop,
            parsePassNaive, List.map_cons, leafParse, List.map_nil, List.nil_append,
            List.singleton_append, List.headD_cons, List.tail_cons]
          exact congrArg _ (ih vs)
      | bool b =>
          simp only [flattenVals, List.map_append, List.append_assoc, writeBackTop,
            parsePassNaive, List.map_cons, leafParse, List.map_nil, List.nil_append,
            List.singleton_append, List.headD_cons, List.tail_cons]
          exact congrArg _ (ih vs)
      | num n =>
          simp only [flattenVals, List.map_append, List.append_assoc, writeBackTop,
            parsePassNaive, List.map_cons, leafParse, List.map_nil, List.nil_append,
            List.singleton_append, List.headD_cons, List.tail_cons]
          exact congrArg _ (ih vs)
      | str s =>
          simp only [flattenVals, List.map_append, List.append_assoc, writeBackTop,
            parsePassNaive, List.map_cons, leafParse, List.map_nil, List.nil_append,
            List.singleton_append, List.headD_cons, List.tail_cons]
          exact congrArg _ (ih vs)

theorem writeBackTop_flatten (r : JSObj) :
    writeBackTop r (batchParseValues (flattenVals r)) = parsePassNaive r := by
  have h := writeBackTop_flatten_aux r []
  simpa [batchParseValues] using h

theorem ctx_batch_eq_naive (data : List (List JSVal)) :
    createContextJSON (some data) = parsePassNaive (rawContextResult data) := by
  show writeBackTop (rawContextResult data)
      (batchParseValues (flattenVals (rawContextResult data))) = _
  exact writeBackTop_flatten _

/-! ## Lemmas about the row scan -/

theorem groupStep_not_kept (acc : ContextAccum) (row : List JSVal)
    (h : rowKept row = false) : groupStep acc row = acc := by
  simp [groupStep, h]

theorem foldl_groupStep_filter (rows : List (List JSVal)) (acc : ContextAccum) :
    (rows.filter rowKept).foldl groupStep acc = rows.foldl groupStep acc := by
  induction rows generalizing acc with
  | nil => rfl
  | cons row rest ih =>
      by_cases h : rowKept row = true
      · simp only [List.filter_cons, h, if_true, List.foldl_cons]
        exact ih _
      · have h' : rowKept row = false := by simpa using h
        simp only [List.filter_cons, h', Bool.false_eq_true, if_false, List.foldl_cons,
          groupStep_not_kept _ _ h']
        exact ih _

theorem getD_replicate_undef (n i : Nat) :
    (List.replicate n JSVal.undef).getD i JSVal.undef = JSVal.undef := by
  induction n generalizing i with
  | zero => simp
  | succ m ih =>
      cases i with
      | zero => simp [List.replicate_succ]
      | succ j => simpa [List.replicate_succ] using ih j

theorem getD_pad_replicate (l : List JSVal) (n i : Nat) :
    (l ++ List.replicate n JSVal.undef).getD i JSVal.undef = l.getD i JSVal.undef := by
  induction l generalizing i with
  | nil => simpa using getD_replicate_undef n i
  | cons x rest ih =>
      cases i with
      | zero => simp
      | succ j => simpa using ih j

theorem getD_padRow7 (row : List JSVal) (i : Nat) :
    (padRow7 row).getD i JSVal.undef = row.getD i JSVal.undef :=
  getD_pad_replicate row _ i

theorem rowKept_pad (row : List JSVal) : rowKept (padRow7 row) = rowKept row := by
  unfold rowKept
  simp only [getD_padRow7]

theorem groupStep_pad (acc : ContextAccum) (row : List JSVal) :
    groupStep acc (padRow7 row) = groupStep acc row := by
  simp only [groupStep, getD_padRow7, rowKept_pad]

theorem keys_pushGrouped (g : List (String × List (JSVal × JSVal))) (c : String)
    (p : JSVal × JSVal) :
    (pushGrouped g c p).map Prod.fst =
      if c ∈ g.map Prod.fst then g.map Prod.fst else g.map Prod.fst ++ [c] := by
  induction g with
  | nil => simp [pushGrouped]
  | cons q rest ih =>
      obtain ⟨c₀, ps⟩ := q
      by_cases h : c₀ = c
      · subst h; simp [pushGrouped]
      · have h' : ¬ c = c₀ := fun hh => h hh.symm
        by_cases h2 : c ∈ rest.map Prod.fst
        · simp [pushGrouped, h, h', h2, ih]
        · simp [pushGrouped, h, h', h2, ih]

theorem nodup_keys_groupStep (acc : ContextAccum) (row : List JSVal)
    (h : (acc.grouped.map Prod.fst).Nodup) :
    ((groupStep acc row).grouped.map Prod.fst).Nodup := by
  simp only [groupStep]
  by_cases h1 : rowKept row = true
  · rw [if_pos h1]
    by_cases h2 : truthy (row.getD 0 JSVal.undef) = true
    · rw [if_pos h2]
      show ((pushGrouped acc.grouped (jsToString (row.getD 0 JSVal.undef))
        (row.getD 3 JSVal.undef, row.getD 6 JSVal.undef)).map Prod.fst).Nodup
      rw [keys_pushGrouped]
      by_cases hm : jsToString (row.getD 0 JSVal.undef) ∈ acc.grouped.map Prod.fst
      · rwa [if_pos hm]
      · rw [if_neg hm]
        exact List.Nodup.append h (List.nodup_singleton _) (by simpa using hm)
    · rw [if_neg h2]
      exact h
  · rw [if_neg h1]
    exact h

theorem nodup_keys_contextGrouped (data : List (List JSVal)) :
    ((contextAccumOf data).grouped.map Prod.fst).Nodup := by
  have haux : ∀ (rows : List (List JSVal)) (acc : ContextAccum),
      (acc.grouped.map Prod.fst).Nodup →
        (((rows.foldl groupStep acc)).grouped.map Prod.fst).Nodup := by
    intro rows
    induction rows with
    | nil => intro acc h; exact h
    | cons row rest ih =>
        intro acc h
        exact ih _ (nodup_keys_groupStep acc row h)
  exact haux _ _ (by simp)

theorem lookupKey_map_entry (g : List (String × List (JSVal × JSVal)))
    (f : List (JSVal × JSVal) → JSVal) (c : String) :
    lookupKey (g.map (fun p => (p.1, f p.2))) c = (g.lookup c).map f := by
  induction g with
  | nil => rfl
  | cons p rest ih =>
      by_cases h : p.1 = c
      · subst h
        simp [lookupKey, List.lookup]
      · have h' : ¬ (c == p.1) = true := by
          simpa using fun hh : c = p.1 => h hh.symm
        simp [lookupKey, List.lookup, h, h', ih]

theorem lookup_collResult (g : List (String × List (JSVal × JSVal))) (c : String)
    (hnd : (g.map Prod.fst).Nodup) :
    lookupKey (g.foldl (fun r p => setKey r p.1 (.obj (fromEntries p.2))) []) c
      = (g.lookup c).map (fun ps => .obj (fromEntries ps)) := by
  have hmap : ∀ (l : List (String × List (JSVal × JSVal))),
      (l.map (fun p => (p.1, JSVal.obj (fromEntries p.2)))).map Prod.fst
        = l.map Prod.fst := by
    intro l
    induction l with
    | nil => rfl
    | cons p r ih => simp only [List.map_cons, ih]
  have h1 : g.foldl (fun r p => setKey r p.1 (.obj (fromEntries p.2))) []
      = assignAll [] (g.map (fun p => (p.1, JSVal.obj (fromEntries p.2)))) := by
    simp [assignAll, List.foldl_map]
  rw [h1, assignAll_nil_of_nodup _ (by rw [hmap]; exact hnd)]
  exact lookupKey_map_entry g (fun ps => JSVal.obj (fromEntries ps)) c

/-! ## Lemmas about the Epics assembler -/

theorem epicsEventData_aux (data : JSObj) (acc : JSObj)
    (hfresh : ∀ p ∈ data, p.1 ∉ acc.map Prod.fst)
    (hnd : (data.map Prod.fst).Nodup) :
    data.foldl (fun ev p => if epicsKept p.2 then setKey ev p.1 p.2 else ev) acc
      = acc ++ data.filter (fun p => epicsKept p.2) := by
  induction data generalizing acc with
  | nil => simp
  | cons p rest ih =>
      simp only [List.map_cons, List.nodup_cons] at hnd
      by_cases h : epicsKept p.2 = true
      · have hfl : ∀ q ∈ rest, q.1 ∉ (acc ++ [(p.1, p.2)]).map Prod.fst := by
          intro q hq
          simp only [List.map_append, List.mem_append, List.map_cons, List.map_nil,
            List.mem_singleton]
          push_neg
          refine ⟨fun hm => hfresh q (by simp [hq]) hm, ?_⟩
          intro hq1
          exact hnd.1 (hq1 ▸ List.mem_map_of_mem Prod.fst hq)
        rw [List.foldl_cons, if_pos h,
          setKey_of_not_mem _ _ _ (hfresh p (by simp)),
          ih _ hfl hnd.2]
        simp [List.filter_cons, h]
      · rw [List.foldl_cons, if_neg h, ih _ (fun q hq => hfresh q (by simp [hq])) hnd.2]
        simp only [List.filter_cons]
        have h' : epicsKept p.2 = false := by simpa using h
        simp [h']

theorem epicsEventData_eq_filter (data : JSObj)
    (hnd : (data.map Prod.fst).Nodup) :
    epicsEventData data = data.filter (fun p => epicsKept p.2) := by
  simpa [epicsEventData] using epicsEventData_aux data [] (by simp) hnd

theorem lookupKey_filter_epics (data : JSObj) (k : String)
    (hnd : (data.map Prod.fst).Nodup) :
    lookupKey (data.filter (fun p => epicsKept p.2)) k =
      (lookupKey data k).bind (fun v => if epicsKept v then some v else none) := by
  induction data with
  | nil => rfl
  | cons p rest ih =>
      simp only [List.map_cons, List.nodup_cons] at hnd
      by_cases h1 : p.1 = k
      · subst h1
        by_cases h2 : epicsKept p.2 = true
        · simp [List.filter_cons, h2, lookupKey]
        · have h2' : epicsKept p.2 = false := by simpa using h2
          have hnone : lookupKey (rest.filter (fun p => epicsKept p.2)) p.1 = none := by
            apply lookupKey_eq_none_of_not_mem
            intro hm
            apply hnd.1
            obtain ⟨q, hq, hq1⟩ := List.mem_map.mp hm
            exact hq1 ▸ List.mem_map_of_mem Prod.fst (List.mem_of_mem_filter hq)
          simp [List.filter_cons, h2', lookupKey, hnone]
      · by_cases h2 : epicsKept p.2 = true
        · simp [List.filter_cons, h2, lookupKey, h1, ih hnd.2]
        · have h2' : epicsKept p.2 = false := by simpa using h2
          simp [List.filter_cons, h2', lookupKey, h1, ih hnd.2]

/-! ## Claims -/

/-- Claim C3: `transform` never raises: a `null`/absent grid yields the
empty object, the empty grid yields the empty object, and a grid with
short (malformed) rows behaves exactly as if every row were padded with
`undefined` to the full 7 columns. -/
theorem transform_fail_soft :
    createContextJSON none = [] ∧
    createContextJSON (some []) = [] ∧
    (∀ g : List (List JSVal),
      createContextJSON (some g) = createContextJSON (some (g.map padRow7))) := by
  refine ⟨rfl, rfl, ?_⟩
  intro g
  have hacc : contextAccumOf (g.map padRow7) = contextAccumOf g := by
    unfold contextAccumOf
    cases g with
    | nil => rfl
    | cons hd tl =>
        simp only [List.map_cons, List.tail_cons]
        rw [List.foldl_map]
        exact List.foldl_ext _ _ _ (fun acc row _ => groupStep_pad acc row)
  have hraw : rawContextResult (g.map padRow7) = rawContextResult g := by
    unfold rawContextResult
    rw [hacc]
  show writeBackTop (rawContextResult g)
      (batchParseValues (flattenVals (rawContextResult g)))
    = writeBackTop (rawContextResult (g.map padRow7))
      (batchParseValues (flattenVals (rawContextResult (g.map padRow7))))
  rw [hraw]

/-- Claim C6: the batched coercion pass of `createContextJSON` (flatten
all leaf values into one list, parse the list, write parsed values back
by a running index) produces exactly the same tree as coercing every
leaf value independently in place with the single-value parse
function. -/
theorem batch_coercion_eq_naive (g : Option (List (List JSVal))) :
    createContextJSON g = createContextJSONNaive g := by
  cases g with
  | none => rfl
  | some data => exact ctx_batch_eq_naive data

/-- Claim C8 counterexample: with duplicate headers `getRowData` does
not produce one entry per header each mapped to the same-position row
value — for headers ["A","A"] and row ["x","y"] it yields the single
entry ("A","y"). -/
theorem mapRow_duplicate_header_counterexample :
    getRowData [JSVal.str "A", JSVal.str "A"] [JSVal.str "x", JSVal.str "y"]
      = [("A", JSVal.str "y")] ∧
    getRowData [JSVal.str "A", JSVal.str "A"] [JSVal.str "x", JSVal.str "y"]
      ≠ [("A", JSVal.str "x"), ("A", JSVal.str "y")] := by
  have h1 : getRowData [JSVal.str "A", JSVal.str "A"] [JSVal.str "x", JSVal.str "y"]
      = [("A", JSVal.str "y")] := rfl
  refine ⟨h1, ?_⟩
  rw [h1]
  simp

/-- Claim C8 (amended): when the headers are pairwise distinct (as the
strings they become when used as keys), `getRowData` produces exactly
one entry per header, in header order, each header mapped to the row
value at the same position, with `undefined` for positions past the end
of the row; row values beyond the headers are ignored. -/
theorem mapRow_zip_of_nodup (headers row : List JSVal)
    (h : (headers.map jsToString).Nodup) :
    getRowData headers row
      = headers.enum.map (fun p => (jsToString p.2, row.getD p.1 JSVal.undef)) := by
  unfold getRowData
  have h1 : headers.enum.foldl
        (fun obj p => setKey obj (jsToString p.2) (row.getD p.1 JSVal.undef)) []
      = assignAll []
          (headers.enum.map (fun p => (jsToString p.2, row.getD p.1 JSVal.undef))) := by
    simp [assignAll, List.foldl_map]
  rw [h1, assignAll_nil_of_nodup]
  have hkeys : ∀ (l : List (Nat × JSVal)),
      (l.map (fun p => (jsToString p.2, row.getD p.1 JSVal.undef))).map Prod.fst
        = l.map (fun p => jsToString p.2) := by
    intro l
    induction l with
    | nil => rfl
    | cons p r ih => simp only [List.map_cons, ih]
  rw [hkeys]
  have h2 : headers.enum.map (fun p => jsToString p.2) = headers.map jsToString := by
    rw [show (fun p : Nat × JSVal => jsToString p.2) = jsToString ∘ Prod.snd from rfl,
      ← List.map_map, List.enum_map_snd]
  rw [h2]
  exact h

/-- Claim C8 witness: the amended mapper statement instantiated at
headers ["A","B"] and the shorter row ["x"], giving "A" ↦ "x" and
"B" ↦ `undefined`. -/
theorem mapRow_zip_witness :
    getRowData [JSVal.str "A", JSVal.str "B"] [JSVal.str "x"]
      = [("A", JSVal.str "x"), ("B", JSVal.undef)] :=
  mapRow_zip_of_nodup [JSVal.str "A", JSVal.str "B"] [JSVal.str "x"] (by decide)

/-- Claim C9: the trigger classifier returns true exactly when the
edited column is 10 (1-based) and the edited value is precisely the
string "Groom EPIC"; any other column, case variant or partial match
returns false. -/
theorem trigger_classifier_exact :
    (∀ (col : Int) (v : JSVal),
      isExtractTodoSummariesTrigger col v = true ↔
        (col = 10 ∧ v = JSVal.str "Groom EPIC")) ∧
    isExtractTodoSummariesTrigger 10 (JSVal.str "groom epic") = false ∧
    isExtractTodoSummariesTrigger 10 (JSVal.str "Groom") = false ∧
    isExtractTodoSummariesTrigger 9 (JSVal.str "Groom EPIC") = false ∧
    isExtractTodoSummariesTrigger 10 (JSVal.str "Groom EPIC") = true := by
  refine ⟨?_, rfl, rfl, rfl, rfl⟩
  intro col v
  cases v <;>
    simp [isExtractTodoSummariesTrigger, isGroomEpic, Bool.and_eq_true, beq_iff_eq]

/-- Claim C10: the webhook lookup returns `none` both for an operation
missing from the configuration and for one configured as the empty
string, and returns the configured URL otherwise, so callers cannot
distinguish the two `none` cases. -/
theorem webhook_lookup_absent_vs_empty :
    (∀ op : String,
      (getWebhookUrl op = none ↔
        (CONFIG_WEBHOOKS.lookup op = none ∨ CONFIG_WEBHOOKS.lookup op = some "")) ∧
      (∀ u, getWebhookUrl op = some u ↔
        (CONFIG_WEBHOOKS.lookup op = some u ∧ u ≠ ""))) ∧
    getWebhookUrl "GROOM_SUBTASKS" = none ∧
    getWebhookUrl "UNKNOWN_OPERATION" = none ∧
    getWebhookUrl "GROOM_EPICS"
      = some "https://hook.eu2.make.com/rl83vjk9x0iad1avisatjk9rok27wgpy" := by
  refine ⟨?_, rfl, rfl, rfl⟩
  intro op
  unfold getWebhookUrl
  cases h : CONFIG_WEBHOOKS.lookup op with
  | none => simp
  | some u =>
      dsimp only
      by_cases hu : u = ""
      · subst hu
        simp
      · rw [if_neg hu]
        constructor
        · simp [hu]
        · intro u'
          constructor
          · intro hh
            obtain rfl := Option.some.inj hh
            exact ⟨rfl, hu⟩
          · intro hh
            exact hh.1

/-- Claim C5: `createEpicsJSON` returns the supplied context tree
unchanged under `context` and an `eventData` object holding exactly the
entries of the row object whose values are neither undefined, null nor
the empty string (falsy-but-present values such as 0 and false are
kept); when trigger metadata is supplied, the five metadata fields are
additionally present at top level. -/
theorem assemble_context_eventData (data : JSObj) (ctx : JSVal) (m : TriggerMeta)
    (h : (data.map Prod.fst).Nodup) :
    lookupKey (createEpicsJSON data ctx (some m)) "context" = some ctx ∧
    lookupKey (createEpicsJSON data ctx (some m)) "eventData"
      = some (.obj (data.filter (fun p => epicsKept p.2))) ∧
    lookupKey (createEpicsJSON data ctx none) "context" = some ctx ∧
    lookupKey (createEpicsJSON data ctx none) "eventData"
      = some (.obj (data.filter (fun p => epicsKept p.2))) ∧
    (∀ k, lookupKey (data.filter (fun p => epicsKept p.2)) k
      = (lookupKey data k).bind (fun v => if epicsKept v then some v else none)) ∧
    lookupKey (createEpicsJSON data ctx (some m)) "gsheet_id" = some m.gsheet_id ∧
    lookupKey (createEpicsJSON data ctx (some m)) "sheet_name_id"
      = some m.sheet_name_id ∧
    lookupKey (createEpicsJSON data ctx (some m)) "row_id" = some m.row_id ∧
    lookupKey (createEpicsJSON data ctx (some m)) "user_id" = some m.user_id ∧
    lookupKey (createEpicsJSON data ctx (some m)) "modify_time"
      = some m.modify_time := by
  have hev := epicsEventData_eq_filter data h
  refine ⟨?_, ?_, ?_, ?_, fun k => lookupKey_filter_epics data k h,
    ?_, ?_, ?_, ?_, ?_⟩ <;>
    simp [createEpicsJSON, setKey, lookupKey, hev]

/-- Claim C5 witness: the assembler at the row object A ↦ 0, B ↦ "",
C ↦ false keeps the falsy-but-present values and drops the empty
string, and exposes the supplied metadata. -/
theorem assemble_context_eventData_witness :
    lookupKey (createEpicsJSON
        [("A", JSVal.num 0), ("B", JSVal.str ""), ("C", JSVal.bool false)]
        (JSVal.obj []) (some metaEx)) "eventData"
      = some (JSVal.obj [("A", JSVal.num 0), ("C", JSVal.bool false)]) ∧
    lookupKey (createEpicsJSON
        [("A", JSVal.num 0), ("B", JSVal.str ""), ("C", JSVal.bool false)]
        (JSVal.obj []) (some metaEx)) "gsheet_id"
      = some (JSVal.str "sheet-id-1") := by
  have h := assemble_context_eventData
    [("A", JSVal.num 0), ("B", JSVal.str ""), ("C", JSVal.bool false)]
    (JSVal.obj []) metaEx (by decide)
  exact ⟨h.2.1, h.2.2.2.2.2.1⟩

theorem isUndef_eq_false_iff (v : JSVal) : isUndef v = false ↔ v ≠ JSVal.undef := by
  cases v <;> simp [isUndef]

theorem isEmptyStr_eq_false_iff (v : JSVal) :
    isEmptyStr v = false ↔ v ≠ JSVal.str "" := by
  cases v <;> simp [isEmptyStr]

theorem leafParse_scalar (v : JSVal) (h : isObjectLike v = false) :
    leafParse v = parseValue v := by
  cases v with
  | obj fields => simp [isObjectLike] at h
  | arr es => simp [isObjectLike] at h
  | undef => rfl
  | null => rfl
  | bool b => rfl
  | num n => rfl
  | str s => rfl

theorem lookupKey_parsePassNaive (r : JSObj) (k : String) :
    lookupKey (parsePassNaive r) k = (lookupKey r k).map leafParse := by
  unfold parsePassNaive
  exact lookupKey_map_vals r leafParse k

/-- Claim C1 counterexample: the row filter is not "entry key non-empty
and entry value non-empty": a row whose entry value is `null` (empty
per the spec) is kept, because `null !== undefined && null !== ''`, and
a row whose entry key is the number 0 (non-empty per the spec) is
dropped, because `0` is falsy. -/
theorem row_filter_counterexample :
    specEmpty JSVal.null = true ∧
    createContextJSON (some [hdr7,
      [.str "", .str "", .str "", .str "K", .str "", .str "", JSVal.null]])
      = [("K", JSVal.null)] ∧
    specEmpty (JSVal.num 0) = false ∧
    createContextJSON (some [hdr7,
      [.str "", .str "", .str "", .num 0, .str "", .str "", .str "V"]]) = [] :=
  ⟨rfl, rfl, rfl, rfl⟩

/-- Claim C1 (amended): a data row contributes to the transform output
iff its entry key (column D) is truthy (so 0, false, "", null and
undefined keys are dropped) and its entry value (column G) is strictly
neither `undefined` nor the empty string (so a `null` value is kept);
rows failing this filter can be removed from any grid without changing
the output. -/
theorem row_filter_amended :
    (∀ (hdr row : List JSVal),
      createContextJSON (some [hdr, row]) ≠ [] ↔
        (truthy (row.getD 3 JSVal.undef) = true ∧
         row.getD 6 JSVal.undef ≠ JSVal.undef ∧
         row.getD 6 JSVal.undef ≠ JSVal.str "")) ∧
    (∀ (hdr : List JSVal) (rows : List (List JSVal)),
      createContextJSON (some (hdr :: rows))
        = createContextJSON (some (hdr :: rows.filter rowKept))) := by
  constructor
  · intro hdr row
    have hbridge : rowKept row = true ↔
        (truthy (row.getD 3 JSVal.undef) = true ∧
         row.getD 6 JSVal.undef ≠ JSVal.undef ∧
         row.getD 6 JSVal.undef ≠ JSVal.str "") := by
      unfold rowKept
      rw [Bool.and_eq_true, Bool.and_eq_true, Bool.not_eq_true', Bool.not_eq_true',
        isUndef_eq_false_iff, isEmptyStr_eq_false_iff, and_assoc]
    rw [← hbridge, ctx_batch_eq_naive]
    have hacc : contextAccumOf [hdr, row] = groupStep ⟨[], []⟩ row := rfl
    by_cases h : rowKept row = true
    · simp only [h, iff_true]
      unfold rawContextResult
      rw [hacc]
      simp only [groupStep, h, if_true]
      by_cases hc : truthy (row.getD 0 JSVal.undef) = true
      · rw [if_pos hc]
        simp [parsePassNaive, assignAll, fromEntries, setKey, pushGrouped]
      · rw [if_neg hc]
        simp [parsePassNaive, assignAll, fromEntries, setKey]
    · have h' : rowKept row = false := by simpa using h
      simp only [h', Bool.false_eq_true, iff_false, ne_eq, not_not]
      unfold rawContextResult
      rw [hacc, groupStep_not_kept _ _ h']
      simp [parsePassNaive, assignAll, fromEntries]
  · intro hdr rows
    have hacc : contextAccumOf (hdr :: rows.filter rowKept)
        = contextAccumOf (hdr :: rows) := by
      unfold contextAccumOf
      simp only [List.tail_cons]
      exact foldl_groupStep_filter rows ⟨[], []⟩
    have hraw : rawContextResult (hdr :: rows.filter rowKept)
        = rawContextResult (hdr :: rows) := by
      unfold rawContextResult
      rw [hacc]
    show writeBackTop (rawContextResult (hdr :: rows))
        (batchParseValues (flattenVals (rawContextResult (hdr :: rows))))
      = writeBackTop (rawContextResult (hdr :: rows.filter rowKept))
        (batchParseValues (flattenVals (rawContextResult (hdr :: rows.filter rowKept))))
    rw [hraw]

/-- Claim C2: when a bare (non-collection) entry key collides with a
collection key, the flat pairs are merged after the collection objects
and overwrite them: the top-level value at that key is the (coerced)
bare value, not the collection object. -/
theorem flat_overwrites_collection (data : List (List JSVal)) (k : String) (v : JSVal)
    (_hcoll : k ∈ (contextAccumOf data).grouped.map Prod.fst)
    (hflat : lookupKey (fromEntries (contextAccumOf data).nonCollectionRows) k
      = some v) :
    lookupKey (createContextJSON (some data)) k = some (leafParse v) := by
  rw [ctx_batch_eq_naive, lookupKey_parsePassNaive]
  have hraw : lookupKey (rawContextResult data) k = some v := by
    unfold rawContextResult
    rw [lookupKey_assignAll]
    have hnd := nodup_keys_fromEntries (contextAccumOf data).nonCollectionRows
    rw [lastWins_eq_lookupKey_of_nodup _ k hnd, hflat]
  rw [hraw]
  rfl

/-- Claim C2 witness: in a grid where collection "X" holds K ↦ V and a
bare row also uses key "X" with value W, the output maps "X" to the
bare value "W". -/
theorem flat_overwrites_collection_witness :
    lookupKey (createContextJSON (some [hdr7,
      [.str "X", .str "", .str "", .str "K", .str "", .str "", .str "V"],
      [.str "", .str "", .str "", .str "X", .str "", .str "", .str "W"]])) "X"
      = some (JSVal.str "W") := by
  have hm : "X" ∈ (["X"] : List String) := by simp
  have h := flat_overwrites_collection
    [hdr7,
      [.str "X", .str "", .str "", .str "K", .str "", .str "", .str "V"],
      [.str "", .str "", .str "", .str "X", .str "", .str "", .str "W"]]
    "X" (JSVal.str "W") hm rfl
  exact h

/-- Claim C4: every leaf of the transform output is the JSON-coercion
of the corresponding pre-coercion leaf: when the leaf parses as a JSON
literal the parsed value appears in the output, otherwise the original
value is kept unchanged; e.g. "42" becomes the number 42, "true" a
boolean, a JSON-object string a nested structure, and a non-JSON string
stays itself. -/
theorem leaf_coercion :
    (∀ (data : List (List JSVal)) (k : String) (v : JSVal),
      isObjectLike v = false →
      lookupKey (rawContextResult data) k = some v →
      lookupKey (createContextJSON (some data)) k
        = some (match jsonParseJS v with | some j => j | none => v)) ∧
    (∀ (data : List (List JSVal)) (k : String) (fields : List (String × JSVal))
        (sk : String) (sv : JSVal),
      lookupKey (rawContextResult data) k = some (.obj fields) →
      lookupKey fields sk = some sv →
      lookupKey (createContextJSON (some data)) k
          = some (.obj (fields.map (fun p => (p.1, parseValue p.2)))) ∧
        lookupKey (fields.map (fun p => (p.1, parseValue p.2))) sk
          = some (match jsonParseJS sv with | some j => j | none => sv)) ∧
    parseValue (.str "42") = .num 42 ∧
    parseValue (.str "true") = .bool true ∧
    parseValue (.str "\x7b\"nestedKey\": \"nestedValue\"\x7d")
      = .obj [("nestedKey", .str "nestedValue")] ∧
    parseValue (.str "Value1") = .str "Value1" := by
  refine ⟨?_, ?_, rfl, rfl, rfl, rfl⟩
  · intro data k v hscalar hlook
    rw [ctx_batch_eq_naive, lookupKey_parsePassNaive, hlook]
    rw [show Option.map leafParse (some v) = some (leafParse v) from rfl,
      leafParse_scalar v hscalar]
    rfl
  · intro data k fields sk sv hlook hinner
    constructor
    · rw [ctx_batch_eq_naive, lookupKey_parsePassNaive, hlook]
      rfl
    · rw [lookupKey_map_vals fields parseValue sk, hinner]
      rfl

/-- Claim C4 witness: in a concrete grid the collection leaf "42" is
coerced to the number 42 and the flat non-JSON leaf "Value1" stays the
same string. -/
theorem leaf_coercion_witness :
    lookupKey (createContextJSON (some [hdr7,
      [.str "C1", .str "", .str "", .str "K1", .str "", .str "", .str "42"],
      [.str "", .str "", .str "", .str "K3", .str "", .str "", .str "Value1"]])) "K3"
      = some (JSVal.str "Value1") ∧
    lookupKey (createContextJSON (some [hdr7,
      [.str "C1", .str "", .str "", .str "K1", .str "", .str "", .str "42"],
      [.str "", .str "", .str "", .str "K3", .str "", .str "", .str "Value1"]])) "C1"
      = some (JSVal.obj [("K1", JSVal.num 42)]) := by
  have h1 := leaf_coercion.1
    [hdr7,
      [.str "C1", .str "", .str "", .str "K1", .str "", .str "", .str "42"],
      [.str "", .str "", .str "", .str "K3", .str "", .str "", .str "Value1"]]
    "K3" (JSVal.str "Value1") rfl rfl
  have h2 := (leaf_coercion.2.1
    [hdr7,
      [.str "C1", .str "", .str "", .str "K1", .str "", .str "", .str "42"],
      [.str "", .str "", .str "", .str "K3", .str "", .str "", .str "Value1"]]
    "C1" [("K1", JSVal.str "42")] "K1" (JSVal.str "42") rfl rfl).1
  exact ⟨h1, h2⟩

/-- Claim C7 counterexample: in a grid where collection "X" holds the
pair (K, V) but a bare row also uses the entry key "X", the collection
key "X" does not map to an object built from the collection's pairs —
it maps to the bare string value. -/
theorem collection_object_counterexample :
    lookupKey (createContextJSON (some [hdr7,
      [.str "X", .str "", .str "", .str "K", .str "", .str "", .str "V"],
      [.str "", .str "", .str "", .str "X", .str "", .str "", .str "QQ"]])) "X"
      = some (JSVal.str "QQ") ∧
    JSVal.str "QQ" ≠ JSVal.obj [("K", JSVal.str "V")] :=
  ⟨rfl, by simp⟩

/-- Claim C7 (amended): a collection key that does not also occur as a
kept bare entry key maps in the transform output to the object built
from the collection's (string-coerced key, coerced value) pairs; within
it entry keys are unique, appear in first-seen row order, and a
duplicate entry key takes the value of its last row. -/
theorem collection_object_built (data : List (List JSVal)) (c : String)
    (pairs : List (JSVal × JSVal))
    (hg : (contextAccumOf data).grouped.lookup c = some pairs)
    (hflat : lookupKey (fromEntries (contextAccumOf data).nonCollectionRows) c
      = none) :
    lookupKey (createContextJSON (some data)) c
      = some (.obj ((fromEntries pairs).map (fun p => (p.1, parseValue p.2)))) ∧
    ((fromEntries pairs).map Prod.fst).Nodup ∧
    (∀ k, lookupKey (fromEntries pairs) k
      = lastWins (pairs.map (fun p => (jsToString p.1, p.2))) k) ∧
    (fromEntries pairs).map Prod.fst
      = firstSeen (pairs.map (fun p => jsToString p.1)) := by
  refine ⟨?_, nodup_keys_fromEntries pairs,
    fun k => lookupKey_fromEntries pairs k, keys_fromEntries pairs⟩
  rw [ctx_batch_eq_naive, lookupKey_parsePassNaive]
  have hraw : lookupKey (rawContextResult data) c
      = some (.obj (fromEntries pairs)) := by
    unfold rawContextResult
    rw [lookupKey_assignAll]
    have hndf := nodup_keys_fromEntries (contextAccumOf data).nonCollectionRows
    rw [lastWins_eq_lookupKey_of_nodup _ c hndf, hflat]
    show lookupKey ((contextAccumOf data).grouped.foldl
      (fun r p => setKey r p.1 (.obj (fromEntries p.2))) []) c = _
    rw [lookup_collResult _ c (nodup_keys_contextGrouped data), hg]
    rfl
  rw [hraw]
  rfl

/-- Claim C7 witness: Collection1 holds Key1 twice (the later row wins)
and Key2 once, entry keys coming out unique and in first-seen order,
with no colliding bare key. -/
theorem collection_object_built_witness :
    lookupKey (createContextJSON (some [hdr7,
      [.str "Collection1", .str "", .str "", .str "Key1", .str "", .str "",
        .str "ValA"],
      [.str "Collection1", .str "", .str "", .str "Key2", .str "", .str "",
        .str "ValB"],
      [.str "Collection1", .str "", .str "", .str "Key1", .str "", .str "",
        .str "ValC"]])) "Collection1"
      = some (JSVal.obj [("Key1", JSVal.str "ValC"), ("Key2", JSVal.str "ValB")]) := by
  have h := collection_object_built
    [hdr7,
      [.str "Collection1", .str "", .str "", .str "Key1", .str "", .str "",
        .str "ValA"],
      [.str "Collection1", .str "", .str "", .str "Key2", .str "", .str "",
        .str "ValB"],
      [.str "Collection1", .str "", .str "", .str "Key1", .str "", .str "",
        .str "ValC"]]
    "Collection1"
    [(.str "Key1", .str "ValA"), (.str "Key2", .str "ValB"),
     (.str "Key1", .str "ValC")]
    rfl rfl
  exact h.1
